import Mathlib

/-!
# zxart-pallete: formal model of the palette-mapping engine

Shallow embedding of the repository `rmksrv/zxart-pallete` (modules
`zxart_pallete/zxart.py` and `zxart_pallete/main.py`).  Python dicts are
modelled as insertion-ordered association lists, Python arbitrary-precision
integers as `Int`, fallible functions as `Except`, and the imperative
per-pixel loop of `colorized_image` as explicit state passing over the two
image objects alive during the call.  The configuration file
`palletes.toml` is not part of the source tree, so every function that
reads it takes the parsed table (or the loaded palette) as an explicit
parameter.
-/

set_option autoImplicit false

/-- `Color` from both modules: `tuple[int, int, int]` (Python ints). -/
abbrev Color := Int × Int × Int

/-- A pixel position `Pos = tuple[int, int]`. -/
abbrev Pos := Nat × Nat

/-! ## Hex decoding (`hex_to_rgb`, zxart.py lines 24-34 / main.py lines 18-25) -/

/-- Python `v >> k` on an arbitrary-precision int: arithmetic shift, i.e.
floor division by `2 ^ k`.  Lean's `/` on `Int` is Euclidean division, which
coincides with floor division for the positive divisors used here. -/
def pyShiftRight (v : Int) (k : Nat) : Int := v / (2 ^ k : Int)

/-- Python `v & 0xFF` on an arbitrary-precision int (two's complement with
infinite sign extension): equals `v mod 256` with a non-negative result.
Lean's `%` on `Int` is Euclidean mod, which agrees for the modulus 256. -/
def pyAnd0xFF (v : Int) : Int := v % 256

/-- The bit-extraction core of `hex_to_rgb` once the value is an int:
`r = (v >> 16) & 0xFF`, `g = (v >> 8) & 0xFF`, `b = v & 0xFF`. -/
def hexValToRgb (v : Int) : Color :=
  (pyAnd0xFF (pyShiftRight v 16), pyAnd0xFF (pyShiftRight v 8), pyAnd0xFF v)

/-- Decidable equality of call outcomes (used by concrete evaluations). -/
instance {ε α : Type} [DecidableEq ε] [DecidableEq α] : DecidableEq (Except ε α) := fun x y =>
  match x, y with
  | .ok a, .ok b => if h : a = b then .isTrue (by rw [h]) else .isFalse (by simp [h])
  | .error e, .error e2 => if h : e = e2 then .isTrue (by rw [h]) else .isFalse (by simp [h])
  | .ok _, .error _ => .isFalse (by simp)
  | .error _, .ok _ => .isFalse (by simp)

/-- A raw configuration color value: either a native int or a string
(`hex_value: int | SupportsInt` in zxart.py). -/
inductive RawColor
  | intVal (v : Int)
  | strVal (s : String)
deriving DecidableEq

/-- `MalformedColorError`: Python's `ValueError` from `int(s, 16)` on a
string that is not parseable as base 16. -/
inductive ColorError
  | malformed (s : String)
deriving DecidableEq

/-- ASCII whitespace stripped by Python's `int(s, 16)` from both ends of the
string (the model restricts Python's whitespace set to ASCII). -/
def isPySpace (c : Char) : Bool :=
  c = ' ' || c = '\t' || c = '\n' || c = '\r' || c = '\x0b' || c = '\x0c'

/-- Strip leading and trailing whitespace, as `int(s, 16)` does. -/
def trimPySpace (cs : List Char) : List Char :=
  ((cs.dropWhile isPySpace).reverse.dropWhile isPySpace).reverse

/-- Value of one hexadecimal digit, if the character is one. -/
def hexDigitVal? (c : Char) : Option Nat :=
  if '0' ≤ c ∧ c ≤ '9' then some (c.toNat - '0'.toNat)
  else if 'a' ≤ c ∧ c ≤ 'f' then some (c.toNat - 'a'.toNat + 10)
  else if 'A' ≤ c ∧ c ≤ 'F' then some (c.toNat - 'A'.toNat + 10)
  else none

/-- Remaining digits after the first one, accumulating the value.  A single
underscore is allowed between two digits (Python's digit-grouping rule);
a trailing, doubled, or misplaced underscore is malformed. -/
def hexDigitsTail : List Char → Nat → Option Nat
  | [], acc => some acc
  | '_' :: c :: cs, acc =>
    match hexDigitVal? c with
    | some d => hexDigitsTail cs (16 * acc + d)
    | none => none
  | ['_'], _ => none
  | c :: cs, acc =>
    match hexDigitVal? c with
    | some d => hexDigitsTail cs (16 * acc + d)
    | none => none

/-- A non-empty run of hex digits (with grouping underscores). -/
def hexDigits : List Char → Option Nat
  | [] => none
  | c :: cs =>
    match hexDigitVal? c with
    | some d => hexDigitsTail cs d
    | none => none

/-- The part after an optional sign: an optional `0x`/`0X` prefix (which may
be followed by one grouping underscore) and then the digits. -/
def hexAfterSign : List Char → Option Nat
  | '0' :: 'x' :: '_' :: rest => hexDigits rest
  | '0' :: 'x' :: rest => hexDigits rest
  | '0' :: 'X' :: '_' :: rest => hexDigits rest
  | '0' :: 'X' :: rest => hexDigits rest
  | rest => hexDigits rest

/-- Model of Python's `int(s, 16)`: strip whitespace, optional sign,
optional `0x` prefix, then hex digits; `none` when malformed. -/
def int16? (s : String) : Option Int :=
  match trimPySpace s.toList with
  | '-' :: rest => (hexAfterSign rest).map (fun n => -(n : Int))
  | '+' :: rest => (hexAfterSign rest).map (fun n => (n : Int))
  | rest => (hexAfterSign rest).map (fun n => (n : Int))

/-- `hex_to_rgb` (zxart.py lines 24-34): an int is used as-is, a string is
parsed as base 16 first; then the same bit extraction applies.  A malformed
string raises `ValueError` (`MalformedColorError`). -/
def hex_to_rgb : RawColor → Except ColorError Color
  | .intVal v => .ok (hexValToRgb v)
  | .strVal s =>
    match int16? s with
    | some v => .ok (hexValToRgb v)
    | none => .error (.malformed s)

/-- Decidable success predicate for `hex_to_rgb` (statement-side helper). -/
def decodes (rv : RawColor) : Bool :=
  match hex_to_rgb rv with
  | .ok _ => true
  | .error _ => false

/-! ## Roles and palettes -/

/-- The 15 color roles, in the fixed canonical enumeration order of the
`Pallete` TypedDict declaration (zxart.py lines 46-62). -/
inductive ColorRole
  | black | white | white_d | red | red_d | green | green_d | blue | blue_d
  | cyan | cyan_d | magenta | magenta_d | yellow | yellow_d
deriving DecidableEq, Fintype, Repr

/-- The configuration key naming each role. -/
def ColorRole.name : ColorRole → String
  | .black => "black"
  | .white => "white"
  | .white_d => "white_d"
  | .red => "red"
  | .red_d => "red_d"
  | .green => "green"
  | .green_d => "green_d"
  | .blue => "blue"
  | .blue_d => "blue_d"
  | .cyan => "cyan"
  | .cyan_d => "cyan_d"
  | .magenta => "magenta"
  | .magenta_d => "magenta_d"
  | .yellow => "yellow"
  | .yellow_d => "yellow_d"

/-- The roles in canonical enumeration order. -/
def allRoles : List ColorRole :=
  [.black, .white, .white_d, .red, .red_d, .green, .green_d, .blue, .blue_d,
   .cyan, .cyan_d, .magenta, .magenta_d, .yellow, .yellow_d]

/-- `REQUIRED_COLORS` (zxart.py line 63): the `Pallete` TypedDict keys, in
declaration order. -/
def REQUIRED_COLORS : List String := allRoles.map ColorRole.name

namespace zxart

/-- A zxart.py `Pallete` value at runtime: a Python dict from role-name
strings to colors, modelled as an association list in insertion order.
(The `t.cast` in `loaded_pallete` does not reorder or filter keys, so the
runtime dict keeps the order, and any extra keys, of the TOML entry.) -/
abbrev Pallete := List (String × Color)

/-- A raw TOML palette entry: role name to raw color value, in file order. -/
abbrev RawPallete := List (String × RawColor)

/-- The parsed `palletes.toml` table: palette name to raw entry. -/
abbrev Config := List (String × RawPallete)

/-- `find_key` (zxart.py lines 37-43): the first key in the dict, in
insertion order, whose value equals `val`; `None` when the dict is empty
(the explicit `if not dct` branch) or when no value matches. -/
def find_key {K V : Type} [DecidableEq V] (val : V) (dct : List (K × V)) : Option K :=
  ((dct.filter (fun kv => decide (kv.2 = val))).map (fun kv => kv.1)).head?

/-- `is_valid_pallete` (zxart.py lines 70-71): every required role name is a
key of the entry. -/
def is_valid_pallete (p : RawPallete) : Bool :=
  REQUIRED_COLORS.all (fun color => p.any (fun kv => decide (kv.1 = color)))

/-- Error taxonomy of `loaded_pallete` (all raised as `ValueError` in the
source, distinguished by their messages). -/
inductive LoadError
  | unknownPallete
  | incompletePallete
  | malformedColor
deriving DecidableEq

/-- The dict comprehension of `loaded_pallete` line 81-84: decode every
value with `hex_to_rgb` in insertion order; the first malformed string
raises (`MalformedColorError`). -/
def decode_colors : RawPallete → Except LoadError Pallete
  | [] => .ok []
  | (k, rv) :: rest =>
    match hex_to_rgb rv with
    | .error _ => .error .malformedColor
    | .ok c =>
      match decode_colors rest with
      | .error e => .error e
      | .ok tail => .ok ((k, c) :: tail)

/-- `loaded_pallete` (zxart.py lines 74-84) with the parsed TOML table
passed explicitly.  `data.get(name)` is `lookup`; the Python guard
`if not pallete:` is true both when the key is absent (`None`) and when the
entry is an empty dict, and both raise the "is not defined" error
(`UnknownPalleteError`); then an entry missing a required role raises the
"defined incorrectly" error (`IncompletePalleteError`); otherwise every
value is decoded. -/
def loaded_pallete (config : Config) (name : String) : Except LoadError Pallete :=
  match config.lookup name with
  | none => .error .unknownPallete
  | some pallete =>
    if pallete.isEmpty then .error .unknownPallete
    else if is_valid_pallete pallete then decode_colors pallete
    else .error .incompletePallete

/-- Errors that can escape `match_pallete_color`: the explicit
`Unapplicable color` `ValueError` (`UnmappableColorError`), or the
`KeyError` from `target_pallete[matched_color_name]` when the matched key
is absent from the target dict. -/
inductive MapError
  | unmappable (c : Color)
  | keyError (k : String)
deriving DecidableEq

/-- `match_pallete_color` (zxart.py lines 98-102).  The guard
`if not matched_color_name:` is true when `find_key` returned `None` and
also when it returned the empty string (a falsy key); both raise the
unmappable error.  Otherwise the target dict is indexed by the matched
role name. -/
def match_pallete_color (c : Color) (source_pallete target_pallete : Pallete) :
    Except MapError Color :=
  match find_key c source_pallete with
  | none => .error (.unmappable c)
  | some name =>
    if name = "" then .error (.unmappable c)
    else
      match target_pallete.lookup name with
      | some col => .ok col
      | none => .error (.keyError name)

end zxart

/-! ## Images and the per-pixel loop -/

/-- A 3-channel RGB raster image: extents plus a pixel map.  `getpixel` is
`px`, and only positions inside the `width × height` rectangle are ever
read or written by the engine. -/
structure Image where
  width : Nat
  height : Nat
  px : Pos → Color

/-- `Image.putpixel xy c`: write color `c` at position `xy`. -/
def Image.putpixel (img : Image) (xy : Pos) (c : Color) : Image :=
  { img with px := fun z => if z = xy then c else img.px z }

/-- `iter_pixels` (zxart.py lines 91-95 / main.py lines 129-132): the pixel
positions `(i, j)` for `i in range(width)`, `j in range(height)`, in that
nesting order. -/
def iter_pixels (w h : Nat) : List Pos :=
  (List.range w).flatMap (fun i => (List.range h).map (fun j => (i, j)))

/-- The two image objects alive during a `colorized_image` call: the
caller's input image `i` and the working copy `res`. -/
structure ImageState where
  inp : Image
  res : Image

/-- The loop body shared by both modules' `colorized_image`: at each
position, read the current color from `res`, map it through the per-pixel
function `f`, and on success write the result back to `res` (the input
image is never written).  A mapping failure aborts the loop, surfacing the
error and the state reached so far. -/
def colorize_loop {ε : Type} (f : Color → Except ε Color) :
    List Pos → ImageState → ImageState × Option ε
  | [], st => (st, none)
  | xy :: rest, st =>
    match f (st.res.px xy) with
    | .error e => (st, some e)
    | .ok c => colorize_loop f rest { st with res := st.res.putpixel xy c }

/-- Run a whole `colorized_image` call: `res = i.copy().convert("RGB")`
makes `res` a fresh object holding the input's pixels (the conversion to
3-channel RGB is PIL's and is the identity in this RGB model), then the
loop visits `iter_pixels` over the image extents.  On success the copy is
returned; on failure the exception propagates and no image is returned. -/
def colorize_run {ε : Type} (f : Color → Except ε Color) (i : Image) :
    ImageState × Option ε :=
  colorize_loop f (iter_pixels i.width i.height) { inp := i, res := i }

/-- Translate the loop outcome into the call's result: a raised error
propagates and no image is produced; otherwise the copy is returned. -/
def finishRun {ε : Type} (run : ImageState × Option ε) : Except ε Image :=
  match run.2 with
  | some e => .error e
  | none => .ok run.1.res

namespace zxart

/-- `colorized_image` (zxart.py lines 105-110), with the module-global
`DEFAULT_PALLETE` passed explicitly as `default_pallete`.  Each pixel of
the copy is mapped with `match_pallete_color` and written back. -/
def colorized_image (default_pallete : Pallete) (i : Image) (pallete : Pallete) :
    Except MapError Image :=
  finishRun (colorize_run (fun c => match_pallete_color c default_pallete pallete) i)

end zxart

namespace mainpy

/-- `Pallete` from main.py (lines 28-63): a frozen dataclass with one field
per role, in canonical declaration order. -/
structure Pallete where
  black : Color
  white : Color
  white_d : Color
  red : Color
  red_d : Color
  green : Color
  green_d : Color
  blue : Color
  blue_d : Color
  cyan : Color
  cyan_d : Color
  magenta : Color
  magenta_d : Color
  yellow : Color
  yellow_d : Color
deriving DecidableEq

/-- The field of a `Pallete` holding a role's color. -/
def Pallete.get (p : Pallete) : ColorRole → Color
  | .black => p.black
  | .white => p.white
  | .white_d => p.white_d
  | .red => p.red
  | .red_d => p.red_d
  | .green => p.green
  | .green_d => p.green_d
  | .blue => p.blue
  | .blue_d => p.blue_d
  | .cyan => p.cyan
  | .cyan_d => p.cyan_d
  | .magenta => p.magenta
  | .magenta_d => p.magenta_d
  | .yellow => p.yellow
  | .yellow_d => p.yellow_d

/-- The unmappable-color `ValueError` of main.py line 166. -/
inductive MapError
  | unmappable (c : Color)
deriving DecidableEq

/-- `map_color_to_pallete` (main.py lines 135-166), with the module-global
`DEFAULT_PALLETE` passed explicitly.  The if/elif chain compares `c`
against the source roles in canonical order and returns the target
palette's field for the first match.  Line 161 of the source reads
`return p.magenta` in the `magenta_d` branch, which this model reproduces
verbatim. -/
def map_color_to_pallete (c : Color) (DEFAULT : Pallete) (p : Pallete) :
    Except MapError Color :=
  if c = DEFAULT.black then .ok p.black
  else if c = DEFAULT.white then .ok p.white
  else if c = DEFAULT.white_d then .ok p.white_d
  else if c = DEFAULT.red then .ok p.red
  else if c = DEFAULT.red_d then .ok p.red_d
  else if c = DEFAULT.green then .ok p.green
  else if c = DEFAULT.green_d then .ok p.green_d
  else if c = DEFAULT.blue then .ok p.blue
  else if c = DEFAULT.blue_d then .ok p.blue_d
  else if c = DEFAULT.cyan then .ok p.cyan
  else if c = DEFAULT.cyan_d then .ok p.cyan_d
  else if c = DEFAULT.magenta then .ok p.magenta
  else if c = DEFAULT.magenta_d then .ok p.magenta
  else if c = DEFAULT.yellow then .ok p.yellow
  else if c = DEFAULT.yellow_d then .ok p.yellow_d
  else .error (.unmappable c)

/-- `colorized_image` (main.py lines 171-179), with `DEFAULT_PALLETE`
explicit.  It iterates `iter_pixels(i)` (the input's extents) while
reading from and writing to the copy `res`, which has the same extents. -/
def colorized_image (DEFAULT : Pallete) (i : Image) (pallete : Pallete) :
    Except MapError Image :=
  finishRun (colorize_run (fun c => map_color_to_pallete c DEFAULT pallete) i)

end mainpy

/-- Modelled from the spec: `palletes.toml` is not part of the source tree,
so the entry order of a loaded palette dict is not fixed by the code under
`src/`.  Per the spec's data model (§3, §6) a palette supplies exactly the
15 required roles, and the `Pallete` TypedDict declares them in canonical
enumeration order; this builds the palette dict whose entries are the
roles in that canonical order with colors given by `f`. -/
def canonPallete (f : ColorRole → Color) : zxart.Pallete :=
  allRoles.map (fun r => (r.name, f r))

/-- Statement-side discriminator: did the call return a value (as opposed
to raising)? -/
def exceptOk {ε α : Type} : Except ε α → Bool
  | .ok _ => true
  | .error _ => false

/-- Statement-side discriminator: did `colorized_image` raise the
unmappable-color error? -/
def failsUnmappable : Except zxart.MapError Image → Bool
  | .error (.unmappable _) => true
  | _ => false

/-- The image returned by a successful call (with a fallback default for
the failure case, which the theorems rule out). -/
def okImage {ε : Type} (r : Except ε Image) (d : Image) : Image :=
  match r with
  | .ok im => im
  | .error _ => d

/-- Position of a role in the canonical enumeration (used to build concrete
test palettes with pairwise distinct colors). -/
def ColorRole.idx : ColorRole → Nat
  | .black => 0
  | .white => 1
  | .white_d => 2
  | .red => 3
  | .red_d => 4
  | .green => 5
  | .green_d => 6
  | .blue => 7
  | .blue_d => 8
  | .cyan => 9
  | .cyan_d => 10
  | .magenta => 11
  | .magenta_d => 12
  | .yellow => 13
  | .yellow_d => 14

/-- A concrete role-coloring with pairwise distinct colors. -/
def exRoleColor (r : ColorRole) : Color := ((r.idx : Int), (r.idx : Int), (r.idx : Int))

/-- A concrete source palette dict (canonical entry order, distinct colors). -/
def exSrcPal : zxart.Pallete := canonPallete exRoleColor

/-- A concrete target palette dict (canonical entry order, distinct colors,
disjoint from `exSrcPal`'s colors). -/
def exTgtPal : zxart.Pallete :=
  canonPallete (fun r => ((100 + r.idx : Int), (100 + r.idx : Int), (100 + r.idx : Int)))

/-- A concrete source `Pallete` dataclass for main.py, distinct colors. -/
def exSrcM : mainpy.Pallete :=
  ⟨(0, 0, 0), (1, 1, 1), (2, 2, 2), (3, 3, 3), (4, 4, 4), (5, 5, 5), (6, 6, 6),
   (7, 7, 7), (8, 8, 8), (9, 9, 9), (10, 10, 10), (11, 11, 11), (12, 12, 12),
   (13, 13, 13), (14, 14, 14)⟩

/-- A concrete target `Pallete` dataclass for main.py, distinct colors. -/
def exTgtM : mainpy.Pallete :=
  ⟨(100, 100, 100), (101, 101, 101), (102, 102, 102), (103, 103, 103),
   (104, 104, 104), (105, 105, 105), (106, 106, 106), (107, 107, 107),
   (108, 108, 108), (109, 109, 109), (110, 110, 110), (111, 111, 111),
   (112, 112, 112), (113, 113, 113), (114, 114, 114)⟩

/-- A complete raw configuration entry (every required role, int values). -/
def exEntry : zxart.RawPallete := REQUIRED_COLORS.map (fun n => (n, RawColor.intVal 7))

/-- A raw configuration entry that supplies all 15 required roles but in
reversed (non-canonical) order, with `yellow_d` and `black` sharing the
color value 0. -/
def revEntry : zxart.RawPallete :=
  [("yellow_d", .intVal 0), ("yellow", .intVal 1), ("magenta_d", .intVal 2),
   ("magenta", .intVal 3), ("cyan_d", .intVal 4), ("cyan", .intVal 5),
   ("blue_d", .intVal 6), ("blue", .intVal 7), ("green_d", .intVal 8),
   ("green", .intVal 9), ("red_d", .intVal 10), ("red", .intVal 11),
   ("white_d", .intVal 12), ("white", .intVal 13), ("black", .intVal 0)]

/-- The palette dict `loaded_pallete` produces from `revEntry`: entries in
the supplied (non-canonical) order. -/
def revPal : zxart.Pallete :=
  [("yellow_d", (0, 0, 0)), ("yellow", (0, 0, 1)), ("magenta_d", (0, 0, 2)),
   ("magenta", (0, 0, 3)), ("cyan_d", (0, 0, 4)), ("cyan", (0, 0, 5)),
   ("blue_d", (0, 0, 6)), ("blue", (0, 0, 7)), ("green_d", (0, 0, 8)),
   ("green", (0, 0, 9)), ("red_d", (0, 0, 10)), ("red", (0, 0, 11)),
   ("white_d", (0, 0, 12)), ("white", (0, 0, 13)), ("black", (0, 0, 0))]

/-! ## Helper lemmas on the loop and the lookup functions -/

theorem putpixel_width (img : Image) (xy : Pos) (c : Color) :
    (img.putpixel xy c).width = img.width := rfl

theorem putpixel_height (img : Image) (xy : Pos) (c : Color) :
    (img.putpixel xy c).height = img.height := rfl

theorem putpixel_px_self (img : Image) (xy : Pos) (c : Color) :
    (img.putpixel xy c).px xy = c := by
  simp [Image.putpixel]

theorem putpixel_px_other (img : Image) (xy z : Pos) (c : Color) (h : z ≠ xy) :
    (img.putpixel xy c).px z = img.px z := by
  simp [Image.putpixel, h]

theorem iter_pixels_eq_product (w h : Nat) :
    iter_pixels w h = List.range w ×ˢ List.range h := rfl

theorem iter_pixels_nodup (w h : Nat) : (iter_pixels w h).Nodup := by
  rw [iter_pixels_eq_product]
  exact (List.nodup_range w).product (List.nodup_range h)

theorem mem_iter_pixels {w h x y : Nat} :
    (x, y) ∈ iter_pixels w h ↔ x < w ∧ y < h := by
  rw [iter_pixels_eq_product]
  simp [List.mem_product]

theorem colorize_loop_inp {ε : Type} (f : Color → Except ε Color) :
    ∀ (ps : List Pos) (st : ImageState), (colorize_loop f ps st).1.inp = st.inp := by
  intro ps
  induction ps with
  | nil => intro st; rfl
  | cons xy rest ih =>
    intro st
    cases hf : f (st.res.px xy) with
    | error e => simp [colorize_loop, hf]
    | ok c => simpa [colorize_loop, hf] using ih _

theorem colorize_loop_width {ε : Type} (f : Color → Except ε Color) :
    ∀ (ps : List Pos) (st : ImageState),
      (colorize_loop f ps st).1.res.width = st.res.width := by
  intro ps
  induction ps with
  | nil => intro st; rfl
  | cons xy rest ih =>
    intro st
    cases hf : f (st.res.px xy) with
    | error e => simp [colorize_loop, hf]
    | ok c => simpa [colorize_loop, hf] using ih _

theorem colorize_loop_height {ε : Type} (f : Color → Except ε Color) :
    ∀ (ps : List Pos) (st : ImageState),
      (colorize_loop f ps st).1.res.height = st.res.height := by
  intro ps
  induction ps with
  | nil => intro st; rfl
  | cons xy rest ih =>
    intro st
    cases hf : f (st.res.px xy) with
    | error e => simp [colorize_loop, hf]
    | ok c => simpa [colorize_loop, hf] using ih _

/-- When the loop finishes with no error, each visited position holds the
mapped value of the color it held at the start (each position is read
before it is written, and is visited at most once), and unvisited
positions are untouched. -/
theorem colorize_loop_ok {ε : Type} (f : Color → Except ε Color) :
    ∀ (ps : List Pos), ps.Nodup → ∀ (st : ImageState),
      (colorize_loop f ps st).2 = none →
      ∀ xy : Pos,
        (xy ∈ ps → f (st.res.px xy) = .ok ((colorize_loop f ps st).1.res.px xy)) ∧
        (xy ∉ ps → (colorize_loop f ps st).1.res.px xy = st.res.px xy) := by
  intro ps
  induction ps with
  | nil =>
    intro _ st _ xy
    exact ⟨fun h => absurd h (List.not_mem_nil xy), fun _ => rfl⟩
  | cons z rest ih =>
    intro hnd st hok xy
    have hz : z ∉ rest := (List.nodup_cons.mp hnd).1
    have hrest : rest.Nodup := (List.nodup_cons.mp hnd).2
    cases hf : f (st.res.px z) with
    | error e => simp [colorize_loop, hf] at hok
    | ok c =>
      have hok' : (colorize_loop f rest { st with res := st.res.putpixel z c }).2 = none := by
        simpa [colorize_loop, hf] using hok
      have heq : colorize_loop f (z :: rest) st =
          colorize_loop f rest { st with res := st.res.putpixel z c } := by
        simp [colorize_loop, hf]
      constructor
      · intro hmem
        rw [heq]
        rcases List.mem_cons.mp hmem with rfl | hmem'
        · have h2 := (ih hrest _ hok' xy).2 hz
          rw [h2, putpixel_px_self, hf]
        · have hne : xy ≠ z := fun h => hz (h ▸ hmem')
          have h1 := (ih hrest _ hok' xy).1 hmem'
          rwa [show ({ st with res := st.res.putpixel z c } : ImageState).res.px xy
                = st.res.px xy from putpixel_px_other _ _ _ _ hne] at h1
      · intro hnmem
        rw [heq]
        have hne : xy ≠ z := fun h => hnmem (h ▸ List.mem_cons_self z rest)
        have hnm' : xy ∉ rest := fun h => hnmem (List.mem_cons_of_mem z h)
        have h2 := (ih hrest _ hok' xy).2 hnm'
        rw [h2]
        exact putpixel_px_other _ _ _ _ hne

/-- The loop reports an error exactly when some visited position's starting
color is rejected by the per-pixel function. -/
theorem colorize_loop_err {ε : Type} (f : Color → Except ε Color) :
    ∀ (ps : List Pos), ps.Nodup → ∀ (st : ImageState),
      ((colorize_loop f ps st).2 ≠ none ↔
        ∃ xy ∈ ps, ∃ e, f (st.res.px xy) = .error e) := by
  intro ps
  induction ps with
  | nil =>
    intro _ st
    simp [colorize_loop]
  | cons z rest ih =>
    intro hnd st
    have hz : z ∉ rest := (List.nodup_cons.mp hnd).1
    have hrest : rest.Nodup := (List.nodup_cons.mp hnd).2
    cases hf : f (st.res.px z) with
    | error e =>
      simp only [colorize_loop, hf]
      constructor
      · intro _
        exact ⟨z, List.mem_cons_self z rest, e, hf⟩
      · intro _
        simp
    | ok c =>
      have heq : colorize_loop f (z :: rest) st =
          colorize_loop f rest { st with res := st.res.putpixel z c } := by
        simp [colorize_loop, hf]
      rw [heq, ih hrest]
      constructor
      · rintro ⟨xy, hmem, e, he⟩
        have hne : xy ≠ z := fun h => hz (h ▸ hmem)
        refine ⟨xy, List.mem_cons_of_mem z hmem, e, ?_⟩
        rwa [show ({ st with res := st.res.putpixel z c } : ImageState).res.px xy
              = st.res.px xy from putpixel_px_other _ _ _ _ hne] at he
      · rintro ⟨xy, hmem, e, he⟩
        rcases List.mem_cons.mp hmem with rfl | hmem'
        · rw [hf] at he
          exact absurd he (by simp)
        · have hne : xy ≠ z := fun h => hz (h ▸ hmem')
          refine ⟨xy, hmem', e, ?_⟩
          rwa [show ({ st with res := st.res.putpixel z c } : ImageState).res.px xy
                = st.res.px xy from putpixel_px_other _ _ _ _ hne]

/-- When the loop reports an error, that error came from the per-pixel
function applied to some visited position's starting color. -/
theorem colorize_loop_err_mem {ε : Type} (f : Color → Except ε Color) :
    ∀ (ps : List Pos), ps.Nodup → ∀ (st : ImageState) (e : ε),
      (colorize_loop f ps st).2 = some e →
      ∃ xy ∈ ps, f (st.res.px xy) = .error e := by
  intro ps
  induction ps with
  | nil =>
    intro _ st e h
    simp [colorize_loop] at h
  | cons z rest ih =>
    intro hnd st e h
    have hz : z ∉ rest := (List.nodup_cons.mp hnd).1
    have hrest : rest.Nodup := (List.nodup_cons.mp hnd).2
    cases hf : f (st.res.px z) with
    | error e' =>
      have : e' = e := by simpa [colorize_loop, hf] using h
      exact ⟨z, List.mem_cons_self z rest, this ▸ hf⟩
    | ok c =>
      have h' : (colorize_loop f rest { st with res := st.res.putpixel z c }).2 = some e := by
        simpa [colorize_loop, hf] using h
      obtain ⟨xy, hmem, he⟩ := ih hrest _ e h'
      have hne : xy ≠ z := fun hh => hz (hh ▸ hmem)
      refine ⟨xy, List.mem_cons_of_mem z hmem, ?_⟩
      rwa [show ({ st with res := st.res.putpixel z c } : ImageState).res.px xy
            = st.res.px xy from putpixel_px_other _ _ _ _ hne] at he

namespace zxart

theorem find_key_eq_none {K : Type} (c : Color) (s : List (K × Color)) :
    find_key c s = none ↔ ∀ kv ∈ s, kv.2 ≠ c := by
  simp [find_key, List.head?_eq_none_iff, List.filter_eq_nil_iff]

theorem find_key_mem {K : Type} (c : Color) :
    ∀ (s : List (K × Color)) (k : K), find_key c s = some k → (k, c) ∈ s := by
  intro s
  induction s with
  | nil => intro k h; simp [find_key] at h
  | cons kv rest ih =>
    obtain ⟨k1, v1⟩ := kv
    intro k h
    by_cases hv : v1 = c
    · subst hv
      simp [find_key, List.filter_cons] at h
      subst h
      exact List.mem_cons_self _ _
    · simp only [find_key, List.filter_cons] at h
      simp only [hv] at h
      exact List.mem_cons_of_mem _ (ih k (by simpa [find_key, hv] using h))

/-- `find_key` over a palette whose entries list the roles of `l` in order,
with colors given by `f`: it returns the first role of `l` whose color
matches, i.e. the first match in the supplied entry order. -/
theorem find_key_map_roles (f : ColorRole → Color) (c : Color) :
    ∀ (l : List ColorRole),
      find_key c (l.map (fun r => (r.name, f r))) =
        ((l.filter (fun r => decide (f r = c))).head?).map ColorRole.name := by
  intro l
  induction l with
  | nil => rfl
  | cons r rest ih =>
    by_cases h : f r = c
    · simp [find_key, List.filter_cons, h]
    · simpa [find_key, List.filter_cons, h] using ih

theorem decodes_iff (rv : RawColor) :
    decodes rv = true ↔ ∃ c, hex_to_rgb rv = .ok c := by
  cases hrv : hex_to_rgb rv <;> simp [decodes, hrv]

theorem decode_colors_ne_unknown (p : RawPallete) :
    decode_colors p ≠ .error .unknownPallete ∧
      decode_colors p ≠ .error .incompletePallete := by
  induction p with
  | nil => simp [decode_colors]
  | cons kv rest ih =>
    obtain ⟨k, rv⟩ := kv
    cases hrv : hex_to_rgb rv with
    | error e => simp [decode_colors, hrv]
    | ok c =>
      cases hrest : decode_colors rest with
      | error e =>
        rw [hrest] at ih
        simpa [decode_colors, hrv, hrest] using ih
      | ok tail => simp [decode_colors, hrv, hrest]

/-- Successful decoding preserves the keys and their order. -/
theorem decode_colors_ok :
    ∀ (p : RawPallete), (∀ kv ∈ p, ∃ c, hex_to_rgb kv.2 = .ok c) →
      ∃ pal, decode_colors p = .ok pal ∧ pal.map Prod.fst = p.map Prod.fst := by
  intro p
  induction p with
  | nil => intro _; exact ⟨[], rfl, rfl⟩
  | cons kv rest ih =>
    intro hall
    obtain ⟨c, hc⟩ := hall kv (List.mem_cons_self kv rest)
    obtain ⟨tail, htail, hkeys⟩ := ih (fun kv' h => hall kv' (List.mem_cons_of_mem kv h))
    refine ⟨(kv.1, c) :: tail, ?_, ?_⟩
    · simp [decode_colors, hc, htail]
    · simpa using hkeys

theorem lookup_isSome_of_mem_fst {α : Type} :
    ∀ (l : List (String × α)) (k : String), k ∈ l.map Prod.fst →
      (l.lookup k).isSome = true := by
  intro l
  induction l with
  | nil => intro k h; simp at h
  | cons kv rest ih =>
    obtain ⟨k1, v1⟩ := kv
    intro k h
    by_cases hk : k = k1
    · subst hk
      simp [List.lookup]
    · have hbeq : (k == k1) = false := beq_eq_false_iff_ne.mpr hk
      simp only [List.lookup, hbeq]
      apply ih
      rcases List.mem_map.mp h with ⟨kv', hmem, hfst⟩
      rcases List.mem_cons.mp hmem with heq | hmem'
      · exfalso
        apply hk
        rw [heq] at hfst
        exact hfst.symm
      · exact List.mem_map.mpr ⟨kv', hmem', hfst⟩

/-- `is_valid_pallete` succeeds exactly when every required role name is a
key of the raw entry. -/
theorem is_valid_iff (p : RawPallete) :
    is_valid_pallete p = true ↔
      ∀ role ∈ REQUIRED_COLORS, ∃ rv, (role, rv) ∈ p := by
  simp only [is_valid_pallete, List.all_eq_true, List.any_eq_true]
  constructor
  · intro h role hrole
    obtain ⟨kv, hmem, hk⟩ := h role hrole
    have : kv = (role, kv.2) := Prod.ext (by simpa using hk) rfl
    exact ⟨kv.2, this ▸ hmem⟩
  · intro h role hrole
    obtain ⟨rv, hmem⟩ := h role hrole
    exact ⟨(role, rv), hmem, by simp⟩

end zxart

namespace zxart

theorem match_err_of_none (c : Color) (s tp : Pallete) (h : find_key c s = none) :
    match_pallete_color c s tp = .error (.unmappable c) := by
  simp [match_pallete_color, h]

/-- Under a target that covers the source's keys (and no falsy empty-string
key in the source), the only error `match_pallete_color` can raise is the
unmappable-color one, and only when no source role has the color. -/
theorem match_error_shape (c : Color) (s tp : Pallete)
    (hcov : s.all (fun kv => (tp.lookup kv.1).isSome) = true)
    (hne : s.all (fun kv => !(kv.1 == "")) = true) (e : MapError)
    (h : match_pallete_color c s tp = .error e) :
    e = .unmappable c ∧ find_key c s = none := by
  cases hfk : find_key c s with
  | none =>
    rw [match_pallete_color, hfk] at h
    exact ⟨by simpa using h.symm, rfl⟩
  | some k =>
    exfalso
    have hmem : (k, c) ∈ s := find_key_mem c s k hfk
    have hk : k ≠ "" := by
      have := (List.all_eq_true.mp hne) (k, c) hmem
      simpa using this
    have hlk : (tp.lookup k).isSome = true := by
      have := (List.all_eq_true.mp hcov) (k, c) hmem
      simpa using this
    rw [match_pallete_color, hfk] at h
    simp only [if_neg hk] at h
    cases hl : tp.lookup k with
    | none => rw [hl] at hlk; simp at hlk
    | some col => rw [hl] at h; simp at h

/-- Under the same coverage hypotheses, a color that some source role holds
is always mapped successfully. -/
theorem match_ok_of_found (c : Color) (s tp : Pallete)
    (hcov : s.all (fun kv => (tp.lookup kv.1).isSome) = true)
    (hne : s.all (fun kv => !(kv.1 == "")) = true) (k : String)
    (h : find_key c s = some k) :
    ∃ col, match_pallete_color c s tp = .ok col := by
  have hmem : (k, c) ∈ s := find_key_mem c s k h
  have hk : k ≠ "" := by
    have := (List.all_eq_true.mp hne) (k, c) hmem
    simpa using this
  have hlk : (tp.lookup k).isSome = true := by
    have := (List.all_eq_true.mp hcov) (k, c) hmem
    simpa using this
  cases hl : tp.lookup k with
  | none => rw [hl] at hlk; simp at hlk
  | some col =>
    refine ⟨col, ?_⟩
    rw [match_pallete_color, h]
    simp [if_neg hk, hl]

end zxart

/-! ## Claim theorems -/

/-- C6: for every non-negative integer `v`, `hex_to_rgb` extracts red from
bits 16-23, green from bits 8-15 and blue from bits 0-7; higher bits are
silently masked off, never an error; with the three concrete values
`0x000000`, `0xFFFFFF` and `0x1FF0000` from the spec. -/
theorem C6_hex_decode_bits :
    (∀ v : Int, 0 ≤ v →
      hexValToRgb v =
        ((((v.toNat >>> 16) &&& 255 : Nat) : Int),
          (((v.toNat >>> 8) &&& 255 : Nat) : Int),
          (((v.toNat &&& 255 : Nat) : Int)))) ∧
    hexValToRgb 0x000000 = (0, 0, 0) ∧
    hexValToRgb 0xFFFFFF = (255, 255, 255) ∧
    hexValToRgb 0x1FF0000 = (255, 0, 0) := by
  refine ⟨?_, by decide, by decide, by decide⟩
  intro v hv
  obtain ⟨n, rfl⟩ := Int.eq_ofNat_of_zero_le hv
  have e255 : ∀ m : Nat, m &&& 255 = m % 256 := by
    intro m
    have h := Nat.and_pow_two_sub_one_eq_mod m 8
    norm_num at h
    exact h
  have e16 : ∀ m : Nat, m >>> 16 = m / 65536 := by
    intro m
    rw [Nat.shiftRight_eq_div_pow]
  have e8 : ∀ m : Nat, m >>> 8 = m / 256 := by
    intro m
    rw [Nat.shiftRight_eq_div_pow]
  simp only [Int.toNat_natCast, e255, e16, e8, hexValToRgb, pyShiftRight, pyAnd0xFF,
    Prod.mk.injEq]
  norm_num

/-- Witness for C6 at the concrete non-negative input `0x123456`. -/
theorem C6_hex_decode_bits_witness :
    hexValToRgb 0x123456 =
      (((((0x123456 : Int).toNat >>> 16) &&& 255 : Nat) : Int),
        ((((0x123456 : Int).toNat >>> 8) &&& 255 : Nat) : Int),
        ((((0x123456 : Int).toNat &&& 255 : Nat) : Int))) :=
  C6_hex_decode_bits.1 0x123456 (by decide)

/-- C7: a hexadecimal string is parsed as base 16 and then decoded exactly
like the equivalent integer, and a malformed string fails with
`MalformedColorError`. -/
theorem C7_hex_string_agrees : ∀ s : String,
    (∀ v : Int, int16? s = some v →
      hex_to_rgb (.strVal s) = hex_to_rgb (.intVal v)) ∧
    (int16? s = none → hex_to_rgb (.strVal s) = .error (.malformed s)) := by
  intro s
  constructor
  · intro v hv
    simp [hex_to_rgb, hv]
  · intro hn
    simp [hex_to_rgb, hn]

/-- Witness for C7: the string `"ff00ff"` parses to `0xff00ff` and decodes
like it; the string `"xyz"` is malformed. -/
theorem C7_hex_string_agrees_witness :
    hex_to_rgb (.strVal "ff00ff") = hex_to_rgb (.intVal 0xff00ff) ∧
    hex_to_rgb (.strVal "xyz") = .error (.malformed "xyz") :=
  ⟨(C7_hex_string_agrees "ff00ff").1 0xff00ff (by decide),
   (C7_hex_string_agrees "xyz").2 (by decide)⟩

/-- C10: for every integer input, including negative ones and ones above
`0xFFFFFF`, `hex_to_rgb` never raises (it is a total function of the int)
and each channel lies in `0..255`. -/
theorem C10_channels_bounded : ∀ v : Int,
    hex_to_rgb (.intVal v) = .ok (hexValToRgb v) ∧
    0 ≤ (hexValToRgb v).1 ∧ (hexValToRgb v).1 ≤ 255 ∧
    0 ≤ (hexValToRgb v).2.1 ∧ (hexValToRgb v).2.1 ≤ 255 ∧
    0 ≤ (hexValToRgb v).2.2 ∧ (hexValToRgb v).2.2 ≤ 255 := by
  intro v
  refine ⟨rfl, ?_⟩
  simp only [hexValToRgb, pyShiftRight, pyAnd0xFF]
  norm_num
  refine ⟨?_, ?_, ?_, ?_, ?_, ?_⟩ <;> omega

/-- C1 (code bug evaluation): in main.py's `map_color_to_pallete`, a pixel
color equal to the source palette's `magenta_d` color (and to no other
role's color) is mapped to the target palette's `magenta` color, not its
`magenta_d` color (line 161 reads `return p.magenta`). -/
theorem C1_magenta_dim_branch_bug :
    mainpy.map_color_to_pallete (12, 12, 12) exSrcM exTgtM = .ok exTgtM.magenta ∧
    exTgtM.magenta ≠ exTgtM.magenta_d ∧
    exSrcM.magenta_d = (12, 12, 12) ∧
    (∀ r : ColorRole, r ≠ .magenta_d → exSrcM.get r ≠ (12, 12, 12)) := by
  decide

/-- C9: `colorized_image` never writes to the input image: the state
reached by the per-pixel loop, whether it completed or stopped at an
error, holds the input image unchanged (all `putpixel` calls target the
copy `res`; `colorized_image` is `finishRun` of this very run).  This
holds for both modules' per-pixel mappers. -/
theorem C9_input_image_preserved :
    ∀ (i : Image) (sp tp : zxart.Pallete) (d p : mainpy.Pallete),
      (colorize_run (fun c => zxart.match_pallete_color c sp tp) i).1.inp = i ∧
      (colorize_run (fun c => mainpy.map_color_to_pallete c d p) i).1.inp = i := by
  intro i sp tp d p
  exact ⟨colorize_loop_inp _ _ _, colorize_loop_inp _ _ _⟩

/-- C3 (counterexample): `loaded_pallete` preserves the configuration's
entry order, and `find_key` resolves a duplicated color to the first match
in that supplied order, not in canonical enumeration order.  With the
entries supplied in reversed order and `black` and `yellow_d` sharing the
color `(0,0,0)`, the resolved role is `yellow_d`, although `black` comes
first canonically. -/
theorem C3_counterexample :
    zxart.loaded_pallete [("p", revEntry)] "p" = .ok revPal ∧
    zxart.find_key ((0 : Int), 0, 0) revPal = some "yellow_d" ∧
    zxart.find_key ((0 : Int), 0, 0) revPal ≠ some "black" := by
  decide

/-- C3 (amended): `resolve_role` (`find_key`) returns the first matching
role in the palette's entry order as supplied by the configuration source;
when the entries are supplied in the canonical enumeration order, the tie
between roles sharing a color therefore resolves to the role that comes
first in canonical order. -/
theorem C3_amended_first_in_supplied_order :
    ∀ (f : ColorRole → Color) (c : Color),
      zxart.find_key c (canonPallete f) =
        ((allRoles.filter (fun r => decide (f r = c))).head?).map ColorRole.name :=
  fun f c => zxart.find_key_map_roles f c allRoles

/-- C8: resolving the source palette's own color for role `r` returns `r`
itself when no other role shares that color, and in general the first role
in canonical enumeration order among those sharing the color (the source
palette's entries being in canonical order, see `canonPallete`). -/
theorem C8_roundtrip : ∀ (f : ColorRole → Color) (r : ColorRole),
    (∃ r0 : ColorRole,
      (allRoles.filter (fun r' => decide (f r' = f r))).head? = some r0 ∧
        zxart.find_key (f r) (canonPallete f) = some r0.name) ∧
    ((∀ r', f r' = f r → r' = r) →
        zxart.find_key (f r) (canonPallete f) = some r.name) := by
  intro f r
  have hmem : r ∈ allRoles := by cases r <;> decide
  have hfk : zxart.find_key (f r) (canonPallete f) =
      ((allRoles.filter (fun r' => decide (f r' = f r))).head?).map ColorRole.name :=
    zxart.find_key_map_roles f (f r) allRoles
  constructor
  · have hne : allRoles.filter (fun r' => decide (f r' = f r)) ≠ [] := by
      intro hnil
      have hin : r ∈ allRoles.filter (fun r' => decide (f r' = f r)) :=
        List.mem_filter.mpr ⟨hmem, by simp⟩
      rw [hnil] at hin
      exact absurd hin (List.not_mem_nil r)
    obtain ⟨r0, rest, hcons⟩ := List.exists_cons_of_ne_nil hne
    refine ⟨r0, by rw [hcons]; rfl, ?_⟩
    rw [hfk, hcons]
    rfl
  · intro huniq
    have hcongr : allRoles.filter (fun r' => decide (f r' = f r)) =
        allRoles.filter (fun r' => decide (r' = r)) := by
      apply List.filter_congr
      intro x _
      by_cases hxr : x = r
      · subst hxr
        simp
      · have hfx : f x ≠ f r := fun he => hxr (huniq x he)
        simp [hxr, hfx]
    have hsingle : allRoles.filter (fun r' => decide (r' = r)) = [r] := by
      cases r <;> decide
    rw [hfk, hcongr, hsingle]
    rfl

/-- Witness for C8 at a concrete coloring with pairwise distinct colors
and the role `magenta_d`. -/
theorem C8_roundtrip_witness :
    zxart.find_key (exRoleColor .magenta_d) (canonPallete exRoleColor) =
      some "magenta_d" :=
  (C8_roundtrip exRoleColor .magenta_d).2 (by decide)

/-- C2 (counterexample): a palette entry that is present in the
configuration but empty fails with `UnknownPaletteError` (the `is not
defined` message), not with `IncompletePaletteError` as the claim states:
Python's `if not pallete:` treats the empty dict like a missing key. -/
theorem C2_counterexample :
    zxart.loaded_pallete [("p", [])] "p" = .error .unknownPallete ∧
    zxart.LoadError.unknownPallete ≠ zxart.LoadError.incompletePallete := by
  decide

/-- C2 (amended): `loaded_pallete name` fails with `UnknownPaletteError`
exactly when `name` is absent from the configuration or its entry is
empty; it fails with `IncompletePaletteError` exactly when the entry is
non-empty but lacks at least one of the 15 required roles; and when the
entry is non-empty, has all 15 required roles and every color value
decodes, it returns a palette containing all 15 required roles. -/
theorem C2_load_errors : ∀ (config : zxart.Config) (name : String),
    (zxart.loaded_pallete config name = .error .unknownPallete ↔
      config.lookup name = none ∨ config.lookup name = some []) ∧
    (zxart.loaded_pallete config name = .error .incompletePallete ↔
      ∃ entry, config.lookup name = some entry ∧ entry ≠ [] ∧
        ¬∀ role ∈ REQUIRED_COLORS, ∃ rv, (role, rv) ∈ entry) ∧
    (∀ entry, config.lookup name = some entry → entry ≠ [] →
      (∀ role ∈ REQUIRED_COLORS, ∃ rv, (role, rv) ∈ entry) →
      entry.all (fun kv => decodes kv.2) = true →
      ∃ pal, zxart.loaded_pallete config name = .ok pal ∧
        ∀ role ∈ REQUIRED_COLORS, (pal.lookup role).isSome = true) := by
  intro config name
  cases hlk : config.lookup name with
  | none =>
    refine ⟨?_, ?_, ?_⟩
    · simp [zxart.loaded_pallete, hlk]
    · simp [zxart.loaded_pallete, hlk]
    · intro entry heq
      exact absurd heq (by simp)
  | some entry =>
    by_cases hemp : entry = []
    · subst hemp
      refine ⟨?_, ?_, ?_⟩
      · simp [zxart.loaded_pallete, hlk]
      · simp [zxart.loaded_pallete, hlk]
      · intro entry' heq hne
        exact absurd (Option.some.inj heq).symm hne
    · have hempb : entry.isEmpty = false := by
        cases entry with
        | nil => exact absurd rfl hemp
        | cons kv rest => rfl
      by_cases hval : zxart.is_valid_pallete entry = true
      · have hload : zxart.loaded_pallete config name = zxart.decode_colors entry := by
          simp [zxart.loaded_pallete, hlk, hempb, hval]
        refine ⟨?_, ?_, ?_⟩
        · rw [hload]
          constructor
          · intro h
            exact absurd h (zxart.decode_colors_ne_unknown entry).1
          · rintro (h | h)
            · exact absurd h (by simp)
            · exact absurd (Option.some.inj h) hemp
        · rw [hload]
          constructor
          · intro h
            exact absurd h (zxart.decode_colors_ne_unknown entry).2
          · rintro ⟨entry', heq', -, hmiss⟩
            obtain rfl := (Option.some.inj heq')
            exact absurd ((zxart.is_valid_iff entry).mp hval) hmiss
        · intro entry' heq' _ _ hdec
          obtain rfl := (Option.some.inj heq')
          have hall : ∀ kv ∈ entry, ∃ c, hex_to_rgb kv.2 = .ok c := by
            intro kv hkv
            exact (zxart.decodes_iff kv.2).mp ((List.all_eq_true.mp hdec) kv hkv)
          obtain ⟨pal, hpal, hkeys⟩ := zxart.decode_colors_ok entry hall
          refine ⟨pal, by rw [hload, hpal], ?_⟩
          intro role hrole
          apply zxart.lookup_isSome_of_mem_fst
          rw [hkeys]
          obtain ⟨rv, hrv⟩ := ((zxart.is_valid_iff entry).mp hval) role hrole
          exact List.mem_map.mpr ⟨(role, rv), hrv, rfl⟩
      · have hload : zxart.loaded_pallete config name = .error .incompletePallete := by
          simp [zxart.loaded_pallete, hlk, hempb, hval]
        refine ⟨?_, ?_, ?_⟩
        · rw [hload]
          constructor
          · intro h
            exact absurd (Except.error.inj h) (by simp)
          · rintro (h | h)
            · exact absurd h (by simp)
            · exact absurd (Option.some.inj h) hemp
        · rw [hload]
          constructor
          · intro _
            refine ⟨entry, rfl, hemp, ?_⟩
            intro hcomplete
            exact hval ((zxart.is_valid_iff entry).mpr hcomplete)
          · intro _
            rfl
        · intro entry' heq' _ hcomplete _
          obtain rfl := (Option.some.inj heq')
          exact absurd ((zxart.is_valid_iff entry).mpr hcomplete) hval

/-- Witness for C2: an absent name fails with the unknown-palette error,
and a complete entry loads into a palette with all 15 roles present. -/
theorem C2_load_errors_witness :
    zxart.loaded_pallete [("p", exEntry)] "q" = .error .unknownPallete ∧
    exceptOk (zxart.loaded_pallete [("p", exEntry)] "p") = true := by
  constructor
  · exact ((C2_load_errors [("p", exEntry)] "q").1).mpr (Or.inl (by decide))
  · obtain ⟨pal, hpal, -⟩ :=
      (C2_load_errors [("p", exEntry)] "p").2.2 exEntry rfl (by decide)
        (fun role hrole => ⟨.intVal 7, List.mem_map.mpr ⟨role, hrole, rfl⟩⟩)
        (by decide)
    rw [hpal]
    rfl

/-- C4: under palettes whose keys make the target cover the source (true
of every pair of loaded palettes, which all hold the 15 role keys) and a
source without the falsy empty-string key, `colorized_image` fails with
the unmappable-color error — returning no image — as soon as some pixel's
color matches no source role, and returns an image when every pixel's
color matches some source role. -/
theorem C4_atomic_failure : ∀ (i : Image) (s tp : zxart.Pallete),
    s.all (fun kv => (tp.lookup kv.1).isSome) = true →
    s.all (fun kv => !(kv.1 == "")) = true →
    ((∃ x y : Nat, x < i.width ∧ y < i.height ∧
        zxart.find_key (i.px (x, y)) s = none) →
      failsUnmappable (zxart.colorized_image s i tp) = true) ∧
    ((∀ x y : Nat, x < i.width → y < i.height →
        zxart.find_key (i.px (x, y)) s ≠ none) →
      exceptOk (zxart.colorized_image s i tp) = true) := by
  intro i s tp hcov hne
  have hndp := iter_pixels_nodup i.width i.height
  constructor
  · rintro ⟨x, y, hx, hy, hfk⟩
    have hmem : ((x, y) : Pos) ∈ iter_pixels i.width i.height :=
      mem_iter_pixels.mpr ⟨hx, hy⟩
    have herr : (colorize_loop (fun c => zxart.match_pallete_color c s tp)
        (iter_pixels i.width i.height) { inp := i, res := i }).2 ≠ none := by
      rw [colorize_loop_err _ _ hndp]
      exact ⟨(x, y), hmem, .unmappable (i.px (x, y)),
        zxart.match_err_of_none _ _ _ hfk⟩
    cases hres : (colorize_loop (fun c => zxart.match_pallete_color c s tp)
        (iter_pixels i.width i.height) { inp := i, res := i }).2 with
    | none => exact absurd hres herr
    | some e =>
      obtain ⟨xy, -, hfe⟩ := colorize_loop_err_mem _ _ hndp _ e hres
      obtain ⟨rfl, -⟩ := zxart.match_error_shape _ s tp hcov hne e hfe
      unfold zxart.colorized_image finishRun colorize_run
      rw [hres]
      rfl
  · intro hall
    have hnone : (colorize_loop (fun c => zxart.match_pallete_color c s tp)
        (iter_pixels i.width i.height) { inp := i, res := i }).2 = none := by
      by_contra hne2
      obtain ⟨⟨x, y⟩, hxy, e, he⟩ := (colorize_loop_err _ _ hndp _).mp hne2
      obtain ⟨hx, hy⟩ := mem_iter_pixels.mp hxy
      obtain ⟨-, hfknone⟩ := zxart.match_error_shape _ s tp hcov hne e he
      exact hall x y hx hy hfknone
    unfold zxart.colorized_image finishRun colorize_run
    rw [hnone]
    rfl

/-- Witness for C4 at the spec's concrete unmappable color `(123,45,67)`
on a 1×1 image, with concrete complete palettes. -/
theorem C4_atomic_failure_witness :
    failsUnmappable
      (zxart.colorized_image exSrcPal (Image.mk 1 1 (fun _ => (123, 45, 67))) exTgtPal) =
      true :=
  (C4_atomic_failure (Image.mk 1 1 (fun _ => (123, 45, 67))) exSrcPal exTgtPal
      (by decide) (by decide)).1
    ⟨0, 0, Nat.zero_lt_one, Nat.zero_lt_one, by decide⟩

/-- C5: when every pixel's (RGB) color maps successfully, `colorized_image`
returns an image of the input's width and height whose every in-range
pixel is the input pixel's color mapped through `match_pallete_color`;
the pixel scan visits every in-range position exactly once (`iter_pixels`
has no duplicates and covers exactly the `width × height` rectangle). -/
theorem C5_dimensions_and_pixels : ∀ (i : Image) (s tp : zxart.Pallete),
    (∀ x : Nat, x < i.width → ∀ y : Nat, y < i.height →
      exceptOk (zxart.match_pallete_color (i.px (x, y)) s tp) = true) →
    exceptOk (zxart.colorized_image s i tp) = true ∧
    (okImage (zxart.colorized_image s i tp) i).width = i.width ∧
    (okImage (zxart.colorized_image s i tp) i).height = i.height ∧
    (∀ x : Nat, x < i.width → ∀ y : Nat, y < i.height →
      zxart.match_pallete_color (i.px (x, y)) s tp =
        .ok ((okImage (zxart.colorized_image s i tp) i).px (x, y))) ∧
    (iter_pixels i.width i.height).Nodup ∧
    (∀ x y : Nat, ((x, y) ∈ iter_pixels i.width i.height ↔ x < i.width ∧ y < i.height)) := by
  intro i s tp hall
  have hndp := iter_pixels_nodup i.width i.height
  have hnone : (colorize_loop (fun c => zxart.match_pallete_color c s tp)
      (iter_pixels i.width i.height) { inp := i, res := i }).2 = none := by
    by_contra hne2
    obtain ⟨⟨x, y⟩, hxy, e, he⟩ := (colorize_loop_err _ _ hndp _).mp hne2
    obtain ⟨hx, hy⟩ := mem_iter_pixels.mp hxy
    have hok := hall x hx y hy
    rw [show (({ inp := i, res := i } : ImageState).res.px (x, y)) = i.px (x, y) from rfl]
      at he
    rw [he] at hok
    exact absurd hok (by simp [exceptOk])
  have hcol : zxart.colorized_image s i tp =
      .ok (colorize_loop (fun c => zxart.match_pallete_color c s tp)
        (iter_pixels i.width i.height) { inp := i, res := i }).1.res := by
    unfold zxart.colorized_image finishRun colorize_run
    rw [hnone]
  refine ⟨by rw [hcol]; rfl, ?_, ?_, ?_, hndp, fun x y => mem_iter_pixels⟩
  · rw [hcol]
    exact colorize_loop_width _ _ _
  · rw [hcol]
    exact colorize_loop_height _ _ _
  · intro x hx y hy
    rw [hcol]
    exact (colorize_loop_ok _ _ hndp _ hnone (x, y)).1 (mem_iter_pixels.mpr ⟨hx, hy⟩)

/-- Witness for C5 on a 1×1 image whose pixel is the source black. -/
theorem C5_dimensions_and_pixels_witness :
    exceptOk (zxart.colorized_image exSrcPal (Image.mk 1 1 (fun _ => (0, 0, 0))) exTgtPal) =
      true :=
  (C5_dimensions_and_pixels (Image.mk 1 1 (fun _ => (0, 0, 0))) exSrcPal exTgtPal
      (fun _ _ _ _ => rfl)).1
